import Mathlib

/-!
Verification of the codec capability registry of `pulseaudio_dlna/codecs.py`.

The Python module is shallowly embedded: each codec class becomes a value of
an inductive `CodecKind` together with a `Codec` record of its instance
attributes; the regular-expression parse performed by `L16Codec.__init__` is
embedded as an explicit backtracking scanner over character lists that follows
the lazy-quantifier semantics of the pattern
`(.*?)(?P<mime_type>.*?);(.*?)rate=(?P<sample_rate>.*?);(.*?)channels=(?P<channels>\d)`;
class-level mutable state (`ENABLED`) becomes explicit state passing.
Python 2 peculiarities that matter are modelled faithfully: `None`/`0`/`""`
falsiness, `None` comparing below every integer under `>`, and `int()`
raising on non-numeric strings (modelled as `Option`).
-/

/-! ## Character classes and decimal digits -/

/-- `\d` of the pattern: an ASCII decimal digit (the pattern is compiled
without `re.UNICODE`). -/
def isDigitChar (c : Char) : Bool := 48 ≤ c.toNat && c.toNat ≤ 57

/-- The characters stripped by Python `int()` before parsing
(`string.whitespace`). -/
def pySpace (c : Char) : Bool :=
  c.toNat = 32 || c.toNat = 9 || c.toNat = 10 || c.toNat = 13 ||
  c.toNat = 11 || c.toNat = 12

/-- The decimal digit character for `n < 10`, as produced by Python's
`str`/`format` of an integer. -/
def digitChar : Nat → Char
  | 0 => '0' | 1 => '1' | 2 => '2' | 3 => '3' | 4 => '4'
  | 5 => '5' | 6 => '6' | 7 => '7' | 8 => '8' | _ => '9'

/-- Decimal rendering of a natural number, least significant digit folded to
the back; `fuel` bounds the recursion (any `fuel > n` is enough). -/
def natDigitsAux : Nat → Nat → List Char → List Char
  | 0, _, acc => acc
  | fuel + 1, n, acc =>
    if n < 10 then digitChar n :: acc
    else natDigitsAux fuel (n / 10) (digitChar (n % 10) :: acc)

/-- Decimal rendering of a natural number (Python `str(n)` for `n ≥ 0`). -/
def natDigits (n : Nat) : List Char := natDigitsAux (n + 1) n []

/-- Decimal rendering of an integer (Python `str(n)`). -/
def intRepr (n : Int) : List Char :=
  if n < 0 then '-' :: natDigits n.natAbs else natDigits n.natAbs

/-- Numeric value of a list of decimal digit characters. -/
def digitsVal (l : List Char) : Nat :=
  l.foldl (fun a c => a * 10 + (c.toNat - 48)) 0

/-- Python `int()` applied to a non-signed token: succeeds exactly on a
non-empty all-digit string. -/
def pyNat (l : List Char) : Option Nat :=
  if l ≠ [] ∧ l.all isDigitChar then some (digitsVal l) else none

/-- Strip leading and trailing whitespace, as Python `int()` does. -/
def pyStrip (l : List Char) : List Char :=
  ((l.dropWhile pySpace).reverse.dropWhile pySpace).reverse

/-- Python `int()` on a stripped token: optional sign then digits. -/
def pyIntCore (l : List Char) : Option Int :=
  match l with
  | [] => none
  | c :: ds =>
    if c = '-' then (pyNat ds).map (fun n => -(n : Int))
    else if c = '+' then (pyNat ds).map (fun n => (n : Int))
    else (pyNat (c :: ds)).map (fun n => (n : Int))

/-- Python `int(s)`: `none` models the `ValueError` raised on a
non-numeric string. -/
def pyInt (l : List Char) : Option Int := pyIntCore (pyStrip l)

/-! ## The L16 MIME pattern

`re.match('(.*?)(?P<mime_type>.*?);(.*?)rate=(?P<sample_rate>.*?);'
          '(.*?)channels=(?P<channels>\d)', mime_string)`

Each scanner below realises one lazy `(.*?)` segment followed by its literal:
it first tries the literal at the current position and, on failure of the
whole remainder, lets the dot consume one more character — a dot never
matches a newline.  The leading anonymous `(.*?)` group always captures the
empty string (any split it could absorb is absorbed by the lazier-first
`mime_type` group), so it is not represented. -/

def litRate : List Char := ['r', 'a', 't', 'e', '=']

def litChannels : List Char := ['c', 'h', 'a', 'n', 'n', 'e', 'l', 's', '=']

/-- Try `channels=(\d)` exactly at the head of `s`. -/
def chanHere (s : List Char) : Option Nat :=
  match s.drop 9 with
  | d :: _ =>
    if litChannels.isPrefixOf s && isDigitChar d then some (d.toNat - 48)
    else none
  | [] => none

/-- Scan `(.*?)channels=(\d)`, returning the captured digit. -/
def chanScan : List Char → Option Nat
  | [] => none
  | c :: rest =>
    match chanHere (c :: rest) with
    | some d => some d
    | none => if c = '\n' then none else chanScan rest

/-- Scan `(?P<sample_rate>.*?);(.*?)channels=(\d)`: the accumulator holds the
sample-rate capture so far (reversed); at each `;` the remainder is tried,
and on failure the `;` is absorbed into the capture. -/
def srScan : List Char → List Char → Option (List Char × Nat)
  | [], _ => none
  | c :: rest, acc =>
    if c = ';' then
      match chanScan rest with
      | some d => some (acc.reverse, d)
      | none => srScan rest (c :: acc)
    else if c = '\n' then none
    else srScan rest (c :: acc)

/-- Try `rate=` exactly at the head of `s` and continue with the
sample-rate segment. -/
def rateHere (s : List Char) : Option (List Char × Nat) :=
  if litRate.isPrefixOf s then srScan (s.drop 5) [] else none

/-- Scan `(.*?)rate=(?P<sample_rate>.*?);(.*?)channels=(\d)`. -/
def rateScan : List Char → Option (List Char × Nat)
  | [] => none
  | c :: rest =>
    match rateHere (c :: rest) with
    | some r => some r
    | none => if c = '\n' then none else rateScan rest

/-- Scan `(?P<mime_type>.*?);(.*?)rate=…`: the accumulator holds the
mime-type capture so far (reversed). -/
def mimeScan : List Char → List Char → Option (List Char × List Char × Nat)
  | [], _ => none
  | c :: rest, acc =>
    if c = ';' then
      match rateScan rest with
      | some (sr, ch) => some (acc.reverse, sr, ch)
      | none => mimeScan rest (c :: acc)
    else if c = '\n' then none
    else mimeScan rest (c :: acc)

/-- The whole `re.match` of `L16Codec.__init__`: on success, the captures
`mime_type`, `sample_rate` (still a raw string) and `channels` (a digit). -/
def l16Match (s : String) : Option (List Char × List Char × Nat) :=
  mimeScan s.data []

/-! ## The codec catalog -/

/-- The concrete codec classes of the module (everything but the abstract
`BaseCodec`; `BitRateMixin` is not a `BaseCodec` subclass). -/
inductive CodecKind
  | mp3 | wav | l16 | aac | ogg | flac | opus
deriving DecidableEq, Repr, Fintype

/-- The kinds composing `BitRateMixin` (MP3, AAC, OGG, Opus). -/
def isBitRateKind : CodecKind → Bool
  | .mp3 | .aac | .ogg | .opus => true
  | _ => false

/-- Instance attributes of a codec descriptor.  The parameter fields are
meaningful only on the kinds that declare them (`bit_rate` on the
`BitRateMixin` kinds, `sample_rate`/`channels` on L16); constructors leave
them `none` elsewhere.  `Option` models Python `None`, and integers are
unbounded as in Python. -/
structure Codec where
  kind : CodecKind
  mime_type : String
  suffix : String
  priority : Int
  bit_rate : Option Int := none
  sample_rate : Option Int := none
  channels : Option Nat := none
deriving DecidableEq, Repr

/-- Python `mime_string or default`: `None` and the empty string are falsy
and select the default. -/
def pyOr (s : Option String) (d : String) : String :=
  match s with
  | none => d
  | some s => if s = "" then d else s

/-- `Mp3Codec.__init__`. -/
def mp3Init (mime_string : Option String := none) : Codec :=
  { kind := .mp3, priority := 18, suffix := "mp3",
    mime_type := pyOr mime_string "audio/mp3" }

/-- `WavCodec.__init__`. -/
def wavInit (mime_string : Option String := none) : Codec :=
  { kind := .wav, priority := 15, suffix := "wav",
    mime_type := pyOr mime_string "audio/wav" }

/-- `AacCodec.__init__`. -/
def aacInit (mime_string : Option String := none) : Codec :=
  { kind := .aac, priority := 12, suffix := "aac",
    mime_type := pyOr mime_string "audio/aac" }

/-- `OggCodec.__init__`. -/
def oggInit (mime_string : Option String := none) : Codec :=
  { kind := .ogg, priority := 6, suffix := "ogg",
    mime_type := pyOr mime_string "audio/ogg" }

/-- `FlacCodec.__init__`. -/
def flacInit (mime_string : Option String := none) : Codec :=
  { kind := .flac, priority := 9, suffix := "flac",
    mime_type := pyOr mime_string "audio/flac" }

/-- `OpusCodec.__init__`. -/
def opusInit (mime_string : Option String := none) : Codec :=
  { kind := .opus, priority := 3, suffix := "opus",
    mime_type := pyOr mime_string "audio/opus" }

/-- The state of an `L16Codec` before (or without) a successful parse. -/
def l16Base : Codec :=
  { kind := .l16, priority := 0, suffix := "pcm16", mime_type := "audio/L16" }

/-- `L16Codec.__init__`: parse the advertised string when one is given and
truthy; `none` as a result models the `ValueError` that `int()` raises when
the matched `sample_rate` capture is not numeric. -/
def l16Init (mime_string : Option String := none) : Option Codec :=
  match mime_string with
  | none => some l16Base
  | some s =>
    if s = "" then some l16Base
    else
      match l16Match s with
      | none => some l16Base
      | some (m, srGroup, ch) =>
        match pyInt srGroup with
        | none => none
        | some sr =>
          some { l16Base with
                  mime_type := String.mk m,
                  sample_rate := some sr,
                  channels := some ch }

/-- `specific_mime_type`: `BaseCodec` returns `mime_type`; `L16Codec`
interpolates `rate`/`channels` when both are truthy (Python: nonzero and
not `None`). -/
def specific_mime_type (c : Codec) : String :=
  if c.kind = .l16 then
    match c.sample_rate, c.channels with
    | some sr, some ch =>
      if sr != 0 && ch != 0 then
        String.mk (c.mime_type.data ++
          ';' :: litRate ++ intRepr sr ++ ';' :: litChannels ++ natDigits ch)
      else c.mime_type
    | _, _ => c.mime_type
  else c.mime_type

/-- Python 2 `>` on optional integers: `None` is smaller than every
integer, and `None > None` is `False`. -/
def pyGtOptI : Option Int → Option Int → Bool
  | some a, some b => decide (b < a)
  | some _, none => true
  | none, _ => false

/-- Python 2 `>` on optional naturals (the `channels` field). -/
def pyGtOptN : Option Nat → Option Nat → Bool
  | some a, some b => decide (b < a)
  | some _, none => true
  | none, _ => false

/-- `__eq__`, dispatched on the class of the left operand:
`BitRateMixin.__eq__` for the bit-rate kinds, `L16Codec.__eq__` for L16,
`BaseCodec.__eq__` (type identity only) otherwise. -/
def codecEq (a b : Codec) : Bool :=
  if isBitRateKind a.kind then
    a.kind == b.kind && a.bit_rate == b.bit_rate
  else if a.kind == .l16 then
    a.kind == b.kind && a.sample_rate == b.sample_rate
      && a.channels == b.channels
  else a.kind == b.kind

/-- `__gt__`, dispatched like `codecEq`. -/
def codecGt (a b : Codec) : Bool :=
  if isBitRateKind a.kind then
    a.kind == b.kind && pyGtOptI a.bit_rate b.bit_rate
  else if a.kind == .l16 then
    a.kind == b.kind && pyGtOptI a.sample_rate b.sample_rate
      && pyGtOptN a.channels b.channels
  else a.kind == b.kind

/-! ## MIME acceptance -/

/-- `SUPPORTED_MIME_TYPES` of each codec class. -/
def SUPPORTED_MIME_TYPES : CodecKind → List String
  | .mp3 => ["audio/mpeg", "audio/mp3"]
  | .wav => ["audio/wav", "audio/x-wav"]
  | .l16 => ["audio/l16"]
  | .aac => ["audio/aac", "audio/x-aac"]
  | .ogg => ["audio/ogg", "audio/x-ogg", "application/ogg"]
  | .flac => ["audio/flac", "audio/x-flac"]
  | .opus => ["audio/opus", "audio/x-opus"]

/-- ASCII lowercasing of a string, as Python 2 `str.lower()`. -/
def pyLower (l : List Char) : List Char := l.map Char.toLower

/-- The loop body of `BaseCodec.accepts`: return `True` on the first
accepted prefix, `False` when the list is exhausted. -/
def acceptsList (l : List String) (m : String) : Bool :=
  match l with
  | [] => false
  | a :: rest =>
    if (pyLower a.data).isPrefixOf (pyLower m.data) then true
    else acceptsList rest m

/-- `BaseCodec.accepts` specialised to each concrete class. -/
def accepts (k : CodecKind) (m : String) : Bool :=
  acceptsList (SUPPORTED_MIME_TYPES k) m

/-! ## Encoder resolution -/

/-- `ENCODERS` of each codec class, by encoder class name. -/
def ENCODERS : CodecKind → List String
  | .mp3 => ["FFMpegMp3Encoder", "AVConvMp3Encoder"]
  | .wav => ["FFMpegWavEncoder", "AVConvWavEncoder"]
  | .l16 => ["FFMpegL16Encoder", "AVConvL16Encoder"]
  | .aac => ["FFMpegAacEncoder", "AVConvAacEncoder"]
  | .ogg => ["FFMpegOggEncoder", "AVConvOggEncoder"]
  | .flac => ["FFMpegFlacEncoder", "AVConvFlacEncoder"]
  | .opus => ["FFMpegOpusEncoder", "AVConvOpusEncoder"]

/-- An encoder instance as built by the three `encoder` properties: the
encoder class applied to the codec's construction arguments (none, the bit
rate, or the sample rate and channel count). -/
inductive EncoderInstance
  | noArgs (name : String)
  | withBitRate (name : String) (bit_rate : Option Int)
  | withRateChannels (name : String) (sample_rate : Option Int)
      (channels : Option Nat)
deriving DecidableEq, Repr

/-- Build the encoder instance a codec passes its parameters to:
`BitRateMixin.encoder` forwards `bit_rate`, `L16Codec.encoder` forwards
`sample_rate`/`channels`, `BaseCodec.encoder` forwards nothing. -/
def mkEncoderInstance (c : Codec) (name : String) : EncoderInstance :=
  if isBitRateKind c.kind then .withBitRate name c.bit_rate
  else if c.kind == .l16 then
    .withRateChannels name c.sample_rate c.channels
  else .noArgs name

/-- The scan `for encoder_type in self.ENCODERS: if encoder_type.AVAILABLE:
return encoder_type(...)`; `av` is the host-dependent `AVAILABLE` flag of
each encoder class. -/
def encoderScan (av : String → Bool) (c : Codec) :
    List String → Option EncoderInstance
  | [] => none
  | e :: rest =>
    if av e then some (mkEncoderInstance c e) else encoderScan av c rest

/-- The `encoder` property of a descriptor. -/
def codecEncoder (av : String → Bool) (c : Codec) : Option EncoderInstance :=
  encoderScan av c (ENCODERS c.kind)

/-! ## Registry loader -/

/-- The `IDENTIFIER` of each codec class. -/
def identifier : CodecKind → String
  | .mp3 => "mp3" | .wav => "wav" | .l16 => "l16" | .aac => "aac"
  | .ogg => "ogg" | .flac => "flac" | .opus => "opus"

/-- The classes enumerated by `inspect.getmembers` (alphabetical by class
name) that pass the `issubclass(_, BaseCodec)` and `is not BaseCodec`
filters. -/
def moduleCodecKinds : List CodecKind :=
  [.aac, .flac, .l16, .mp3, .ogg, .opus, .wav]

/-- `load_codecs` as a transformer of the `CODECS` mapping: populate the
mapping from the module's classes when it is empty, leave it alone
otherwise. -/
def load_codecs (codecs : List (String × CodecKind)) :
    List (String × CodecKind) :=
  if codecs.length = 0 then moduleCodecKinds.map (fun k => (identifier k, k))
  else codecs

/-! ## The class-level `ENABLED` flag -/

/-- The mutable class attributes backing `enabled`: `BaseCodec.ENABLED`
plus, per concrete class, the shadowing attribute created by the first
setter call on an instance of that class. -/
structure EnabledState where
  base : Bool
  shadow : CodecKind → Option Bool

/-- The state at module load: only `BaseCodec.ENABLED = True` exists. -/
def initialEnabled : EnabledState := ⟨true, fun _ => none⟩

/-- The `enabled` getter: `type(self).ENABLED`, resolved through the class
hierarchy. -/
def readEnabled (st : EnabledState) (c : Codec) : Bool :=
  (st.shadow c.kind).getD st.base

/-- The `enabled` setter on an instance: `type(self).ENABLED = value`. -/
def setEnabledVia (st : EnabledState) (c : Codec) (v : Bool) : EnabledState :=
  ⟨st.base, fun k => if k = c.kind then some v else st.shadow k⟩

/-! ## Lemmas: decimal digits and `int()` -/

theorem digitsVal_append (l : List Char) (c : Char) :
    digitsVal (l ++ [c]) = digitsVal l * 10 + (c.toNat - 48) := by
  simp [digitsVal, List.foldl_append]

theorem digitChar_spec {n : Nat} (h : n < 10) :
    isDigitChar (digitChar n) = true ∧ (digitChar n).toNat - 48 = n := by
  interval_cases n <;> exact ⟨by decide, by decide⟩

theorem natDigitsAux_spec : ∀ (fuel n : Nat) (acc : List Char), n < fuel →
    ∃ ds, natDigitsAux fuel n acc = ds ++ acc ∧ ds ≠ [] ∧
      (∀ c ∈ ds, isDigitChar c = true) ∧ digitsVal ds = n := by
  intro fuel
  induction fuel with
  | zero => intro n acc h; omega
  | succ fuel ih =>
    intro n acc h
    by_cases h10 : n < 10
    · refine ⟨[digitChar n], by simp [natDigitsAux, h10], by simp, ?_, ?_⟩
      · intro c hc
        rw [List.mem_singleton] at hc
        subst hc
        exact (digitChar_spec h10).1
      · have := (digitChar_spec h10).2
        simp [digitsVal]
        omega
    · have hdiv : n / 10 < fuel := by
        have h1 : n / 10 < n := Nat.div_lt_self (by omega) (by omega)
        omega
      obtain ⟨ds, heq, hne, hdig, hval⟩ :=
        ih (n / 10) (digitChar (n % 10) :: acc) hdiv
      have hm : n % 10 < 10 := Nat.mod_lt _ (by omega)
      refine ⟨ds ++ [digitChar (n % 10)], ?_, by simp, ?_, ?_⟩
      · rw [natDigitsAux, if_neg h10, heq]
        simp
      · intro c hc
        rcases List.mem_append.1 hc with hcl | hcr
        · exact hdig c hcl
        · rw [List.mem_singleton] at hcr
          subst hcr
          exact (digitChar_spec hm).1
      · rw [digitsVal_append, hval, (digitChar_spec hm).2]
        omega

theorem natDigits_spec (n : Nat) :
    natDigits n ≠ [] ∧ (∀ c ∈ natDigits n, isDigitChar c = true) ∧
      digitsVal (natDigits n) = n := by
  obtain ⟨ds, heq, hne, hdig, hval⟩ := natDigitsAux_spec (n + 1) n [] (by omega)
  rw [natDigits, heq, List.append_nil]
  exact ⟨hne, hdig, hval⟩

theorem digit_not_special {c : Char} (h : isDigitChar c = true) :
    c ≠ ';' ∧ c ≠ '\n' ∧ c ≠ '-' ∧ c ≠ '+' ∧ pySpace c = false := by
  have hn : 48 ≤ c.toNat ∧ c.toNat ≤ 57 := by
    simpa [isDigitChar] using h
  refine ⟨?_, ?_, ?_, ?_, ?_⟩
  · intro hc; subst hc; exact absurd hn (by decide)
  · intro hc; subst hc; exact absurd hn (by decide)
  · intro hc; subst hc; exact absurd hn (by decide)
  · intro hc; subst hc; exact absurd hn (by decide)
  · by_contra hsp
    rw [Bool.not_eq_false] at hsp
    simp [pySpace] at hsp
    omega

theorem dropWhile_eq_self {p : Char → Bool} {l : List Char}
    (h : ∀ c ∈ l, p c = false) : l.dropWhile p = l := by
  cases l with
  | nil => rfl
  | cons c t => simp [List.dropWhile_cons, h c (by simp)]

theorem pyStrip_eq_self {l : List Char} (h : ∀ c ∈ l, pySpace c = false) :
    pyStrip l = l := by
  unfold pyStrip
  rw [dropWhile_eq_self h,
      dropWhile_eq_self (fun c hc => h c (List.mem_reverse.1 hc)),
      List.reverse_reverse]

theorem pyNat_digits {ds : List Char} (hne : ds ≠ [])
    (hd : ∀ c ∈ ds, isDigitChar c = true) :
    pyNat ds = some (digitsVal ds) := by
  unfold pyNat
  rw [if_pos ⟨hne, List.all_eq_true.2 hd⟩]

theorem pyInt_intRepr (n : Int) : pyInt (intRepr n) = some n := by
  obtain ⟨hne, hdig, hval⟩ := natDigits_spec n.natAbs
  by_cases hn : n < 0
  · have hrep : intRepr n = '-' :: natDigits n.natAbs := by
      rw [intRepr, if_pos hn]
    have hstrip : pyStrip ('-' :: natDigits n.natAbs)
        = '-' :: natDigits n.natAbs := by
      apply pyStrip_eq_self
      intro c hc
      rcases List.mem_cons.1 hc with rfl | hc
      · decide
      · exact (digit_not_special (hdig c hc)).2.2.2.2
    rw [pyInt, hrep, hstrip, pyIntCore, if_pos rfl, pyNat_digits hne hdig, hval]
    show some (-(n.natAbs : Int)) = some n
    congr 1
    omega
  · have hrep : intRepr n = natDigits n.natAbs := by
      rw [intRepr, if_neg hn]
    have hstrip : pyStrip (natDigits n.natAbs) = natDigits n.natAbs := by
      apply pyStrip_eq_self
      intro c hc
      exact (digit_not_special (hdig c hc)).2.2.2.2
    rw [pyInt, hrep, hstrip]
    cases hds : natDigits n.natAbs with
    | nil => exact absurd hds hne
    | cons d t =>
      have hdd : isDigitChar d = true := hdig d (by rw [hds]; simp)
      have hspec := digit_not_special hdd
      rw [pyIntCore, if_neg hspec.2.2.1, if_neg hspec.2.2.2.1, ← hds,
          pyNat_digits hne hdig, hval]
      show some ((n.natAbs : Int)) = some n
      congr 1
      omega

/-! ## Lemmas: the pattern scanners -/

theorem chanHere_le {s : List Char} {d : Nat} (h : chanHere s = some d) :
    d ≤ 9 := by
  unfold chanHere at h
  split at h
  · split at h
    · rename_i x t heq hx
      have hdig : 48 ≤ x.toNat ∧ x.toNat ≤ 57 := by
        rw [Bool.and_eq_true] at hx
        simpa [isDigitChar] using hx.2
      injection h with h
      omega
    · cases h
  · cases h

theorem chanScan_le : ∀ {s : List Char} {d : Nat},
    chanScan s = some d → d ≤ 9 := by
  intro s
  induction s with
  | nil => intro d h; simp [chanScan] at h
  | cons c rest ih =>
    intro d h
    rw [chanScan] at h
    cases hch : chanHere (c :: rest) with
    | some e =>
      rw [hch] at h
      injection h with h
      subst h
      exact chanHere_le hch
    | none =>
      rw [hch] at h
      by_cases hc : c = '\n'
      · rw [if_pos hc] at h; cases h
      · rw [if_neg hc] at h; exact ih h

theorem srScan_le : ∀ {s acc : List Char} {r : List Char × Nat},
    srScan s acc = some r → r.2 ≤ 9 := by
  intro s
  induction s with
  | nil => intro acc r h; simp [srScan] at h
  | cons c rest ih =>
    intro acc r h
    rw [srScan] at h
    by_cases hc : c = ';'
    · rw [if_pos hc] at h
      cases hch : chanScan rest with
      | some d =>
        rw [hch] at h
        injection h with h
        subst h
        exact chanScan_le hch
      | none => rw [hch] at h; exact ih h
    · rw [if_neg hc] at h
      by_cases hn : c = '\n'
      · rw [if_pos hn] at h; cases h
      · rw [if_neg hn] at h; exact ih h

theorem rateHere_le {s : List Char} {r : List Char × Nat}
    (h : rateHere s = some r) : r.2 ≤ 9 := by
  unfold rateHere at h
  by_cases hp : litRate.isPrefixOf s
  · rw [if_pos hp] at h; exact srScan_le h
  · rw [if_neg hp] at h; cases h

theorem rateScan_le : ∀ {s : List Char} {r : List Char × Nat},
    rateScan s = some r → r.2 ≤ 9 := by
  intro s
  induction s with
  | nil => intro r h; simp [rateScan] at h
  | cons c rest ih =>
    intro r h
    rw [rateScan] at h
    cases hrh : rateHere (c :: rest) with
    | some r' =>
      rw [hrh] at h
      injection h with h
      subst h
      exact rateHere_le hrh
    | none =>
      rw [hrh] at h
      by_cases hc : c = '\n'
      · rw [if_pos hc] at h; cases h
      · rw [if_neg hc] at h; exact ih h

theorem rateScan_append_some : ∀ (u t : List Char), (∀ c ∈ u, c ≠ '\n') →
    rateScan t ≠ none → rateScan (u ++ t) ≠ none := by
  intro u
  induction u with
  | nil => intro t _ ht; simpa using ht
  | cons c u' ih =>
    intro t hu ht
    have hc : c ≠ '\n' := hu c (by simp)
    rw [List.cons_append, rateScan]
    cases hrh : rateHere (c :: (u' ++ t)) with
    | some r => simp
    | none =>
      rw [if_neg hc]
      exact ih t (fun x hx => hu x (by simp [hx])) ht

theorem mimeScan_decomp : ∀ (s acc : List Char) (m rG : List Char) (ch : Nat),
    mimeScan s acc = some (m, rG, ch) →
    ∃ u t, s = u ++ ';' :: t ∧ m = acc.reverse ++ u ∧
      (∀ c ∈ u, c ≠ ';' ∧ c ≠ '\n') ∧ rateScan t = some (rG, ch) := by
  intro s
  induction s with
  | nil => intro acc m rG ch h; simp [mimeScan] at h
  | cons c rest ih =>
    intro acc m rG ch h
    rw [mimeScan] at h
    by_cases hc : c = ';'
    · subst hc
      rw [if_pos rfl] at h
      cases hrt : rateScan rest with
      | some r =>
        rw [hrt] at h
        obtain ⟨sr', ch'⟩ := r
        injection h with h
        refine ⟨[], rest, by simp, ?_, by simp, ?_⟩
        · have := congrArg Prod.fst h
          simpa using this.symm
        · have h2 := congrArg Prod.snd h
          rw [hrt]
          simpa using h2
      | none =>
        rw [hrt] at h
        obtain ⟨u', t', hs, hm, hclean, hrt'⟩ := ih (';' :: acc) m rG ch h
        exfalso
        have hne : rateScan rest ≠ none := by
          rw [hs, show u' ++ ';' :: t' = (u' ++ [';']) ++ t' by simp]
          apply rateScan_append_some
          · intro x hx
            rcases List.mem_append.1 hx with hxu | hxs
            · exact (hclean x hxu).2
            · rw [List.mem_singleton] at hxs; subst hxs; decide
          · rw [hrt']; exact Option.noConfusion
        exact hne hrt
    · rw [if_neg hc] at h
      by_cases hn : c = '\n'
      · rw [if_pos hn] at h; cases h
      · rw [if_neg hn] at h
        obtain ⟨u', t', hs, hm, hclean, hrt'⟩ := ih (c :: acc) m rG ch h
        refine ⟨c :: u', t', by simp [hs], ?_, ?_, hrt'⟩
        · rw [hm]; simp
        · intro x hx
          rcases List.mem_cons.1 hx with rfl | hx
          · exact ⟨hc, hn⟩
          · exact hclean x hx

theorem chanHere_exact {ch : Nat} (h : ch < 10) (t : List Char) :
    chanHere (litChannels ++ digitChar ch :: t) = some ch := by
  have hpre : litChannels.isPrefixOf (litChannels ++ digitChar ch :: t)
      = true := by
    simp [litChannels, List.isPrefixOf_cons₂]
  show (if (litChannels.isPrefixOf (litChannels ++ digitChar ch :: t)
        && isDigitChar (digitChar ch)) = true
      then some ((digitChar ch).toNat - 48) else none) = some ch
  rw [hpre, (digitChar_spec h).1]
  simp [(digitChar_spec h).2]

theorem chanScan_exact {ch : Nat} (h : ch < 10) (t : List Char) :
    chanScan (litChannels ++ digitChar ch :: t) = some ch := by
  rw [show litChannels ++ digitChar ch :: t
      = 'c' :: (['h', 'a', 'n', 'n', 'e', 'l', 's', '='] ++ digitChar ch :: t)
    from rfl]
  rw [chanScan]
  rw [show 'c' :: (['h', 'a', 'n', 'n', 'e', 'l', 's', '='] ++
        digitChar ch :: t) = litChannels ++ digitChar ch :: t from rfl]
  rw [chanHere_exact h]

theorem srScan_clean : ∀ (D acc w : List Char) {ch : Nat},
    (∀ c ∈ D, c ≠ ';' ∧ c ≠ '\n') → chanScan w = some ch →
    srScan (D ++ ';' :: w) acc = some (acc.reverse ++ D, ch) := by
  intro D
  induction D with
  | nil =>
    intro acc w ch _ hw
    rw [List.nil_append, srScan, if_pos rfl, hw]
    simp
  | cons c D' ih =>
    intro acc w ch hD hw
    have hc := hD c (by simp)
    rw [List.cons_append, srScan, if_neg hc.1, if_neg hc.2,
        ih (c :: acc) w (fun x hx => hD x (by simp [hx])) hw]
    simp

theorem rateScan_exact {v : List Char} {r : List Char × Nat}
    (h : srScan v [] = some r) : rateScan (litRate ++ v) = some r := by
  have hpre : litRate.isPrefixOf (litRate ++ v) = true := by
    simp [litRate, List.isPrefixOf_cons₂]
  have hdrop : (litRate ++ v).drop 5 = v := rfl
  rw [show litRate ++ v = 'r' :: (['a', 't', 'e', '='] ++ v) from rfl]
  rw [rateScan]
  rw [show 'r' :: (['a', 't', 'e', '='] ++ v) = litRate ++ v from rfl]
  rw [show rateHere (litRate ++ v) = srScan v [] by
        rw [rateHere, if_pos hpre, hdrop]]
  rw [h]

theorem mimeScan_clean : ∀ (u acc t : List Char) {r : List Char × Nat},
    (∀ c ∈ u, c ≠ ';' ∧ c ≠ '\n') → rateScan t = some r →
    mimeScan (u ++ ';' :: t) acc = some (acc.reverse ++ u, r.1, r.2) := by
  intro u
  induction u with
  | nil =>
    intro acc t r _ ht
    rw [List.nil_append, mimeScan, if_pos rfl, ht]
    simp
  | cons c u' ih =>
    intro acc t r hu ht
    have hc := hu c (by simp)
    rw [List.cons_append, mimeScan, if_neg hc.1, if_neg hc.2,
        ih (c :: acc) t (fun x hx => hu x (by simp [hx])) ht]
    simp

/-! ## Lemmas: the L16 constructor -/

theorem natDigits_lt_ten {ch : Nat} (h : ch < 10) :
    natDigits ch = [digitChar ch] := by
  rw [natDigits, natDigitsAux, if_pos h]

theorem intRepr_clean (n : Int) : ∀ c ∈ intRepr n, c ≠ ';' ∧ c ≠ '\n' := by
  intro c hc
  have hdig := (natDigits_spec n.natAbs).2.1
  rw [intRepr] at hc
  by_cases hn : n < 0
  · rw [if_pos hn] at hc
    rcases List.mem_cons.1 hc with rfl | hc
    · exact ⟨by decide, by decide⟩
    · have := digit_not_special (hdig c hc)
      exact ⟨this.1, this.2.1⟩
  · rw [if_neg hn] at hc
    have := digit_not_special (hdig c hc)
    exact ⟨this.1, this.2.1⟩

theorem l16Init_eq_some {s : String} {sr : Int} (hne : s ≠ "")
    {m rG : List Char} {chG : Nat}
    (hm : l16Match s = some (m, rG, chG)) (hint : pyInt rG = some sr) :
    l16Init (some s) = some { l16Base with
      mime_type := String.mk m
      sample_rate := some sr
      channels := some chG } := by
  simp only [l16Init, if_neg hne, hm, hint]

theorem l16Init_inv {s : String} {c : Codec} (h : l16Init (some s) = some c)
    {sr : Int} (hsr : c.sample_rate = some sr) :
    ∃ m rG chG, l16Match s = some (m, rG, chG) ∧ pyInt rG = some sr ∧
      c = { l16Base with
            mime_type := String.mk m
            sample_rate := some sr
            channels := some chG } := by
  rw [l16Init] at h
  by_cases hse : s = ""
  · rw [if_pos hse] at h
    injection h with h
    subst h
    cases hsr
  · rw [if_neg hse] at h
    cases hm : l16Match s with
    | none =>
      simp only [hm] at h
      injection h with h
      subst h
      cases hsr
    | some r =>
      obtain ⟨m, rG, chG⟩ := r
      simp only [hm] at h
      cases hint : pyInt rG with
      | none =>
        simp only [hint] at h
        cases h
      | some sr' =>
        simp only [hint] at h
        injection h with h
        subst h
        simp only [Codec.sample_rate] at hsr
        injection hsr with hsr
        subst hsr
        exact ⟨m, rG, chG, rfl, hint, rfl⟩

theorem l16Init_roundtrip {s : String} {c : Codec} {sr : Int} {ch : Nat}
    (hinit : l16Init (some s) = some c) (hsr : c.sample_rate = some sr)
    (hch : c.channels = some ch) (hsr0 : sr ≠ 0) (hch0 : ch ≠ 0) :
    l16Init (some (specific_mime_type c)) = some c := by
  obtain ⟨m, rG, chG, hm, hint, hc⟩ := l16Init_inv hinit hsr
  have hchG : chG = ch := by
    rw [hc] at hch
    simp only [Codec.channels] at hch
    injection hch
  rw [hchG] at hc hm
  rw [l16Match] at hm
  obtain ⟨u, t, hs, hmm, hclean, hrt⟩ := mimeScan_decomp s.data [] m rG ch hm
  rw [List.reverse_nil, List.nil_append] at hmm
  have hch9 : ch < 10 := by
    have := rateScan_le hrt
    simp at this
    omega
  have hclean' : ∀ x ∈ m, x ≠ ';' ∧ x ≠ '\n' := by
    rw [hmm]; exact hclean
  have hspec : specific_mime_type c = String.mk (m ++ ';' ::
      (litRate ++ (intRepr sr ++ ';' ::
        (litChannels ++ digitChar ch :: [])))) := by
    rw [hc]
    show (if CodecKind.l16 = CodecKind.l16 then _ else _) = _
    rw [if_pos rfl]
    show (if (sr != 0 && ch != 0) = true then _ else _) = _
    rw [if_pos (by simp [hsr0, hch0])]
    show String.mk ((String.mk m).data ++
      ';' :: litRate ++ intRepr sr ++ ';' :: litChannels ++ natDigits ch) = _
    rw [natDigits_lt_ten hch9]
    congr 1
    simp
  rw [hspec]
  have hmatch : l16Match (String.mk (m ++ ';' ::
      (litRate ++ (intRepr sr ++ ';' ::
        (litChannels ++ digitChar ch :: []))))) = some (m, intRepr sr, ch) := by
    rw [l16Match]
    have hchan : chanScan (litChannels ++ digitChar ch :: []) = some ch :=
      chanScan_exact hch9 []
    have hsrs : srScan (intRepr sr ++ ';' ::
        (litChannels ++ digitChar ch :: [])) [] = some (intRepr sr, ch) := by
      have := srScan_clean (intRepr sr) []
        (litChannels ++ digitChar ch :: []) (intRepr_clean sr) hchan
      simpa using this
    have hrate := rateScan_exact hsrs
    have := mimeScan_clean m [] _ hclean' hrate
    simpa using this
  have hne : String.mk (m ++ ';' ::
      (litRate ++ (intRepr sr ++ ';' ::
        (litChannels ++ digitChar ch :: [])))) ≠ "" := by
    intro hcontra
    have : m ++ ';' :: (litRate ++ (intRepr sr ++ ';' ::
        (litChannels ++ digitChar ch :: []))) = ([] : List Char) :=
      congrArg String.data hcontra
    simp at this
  rw [l16Init_eq_some hne hmatch (pyInt_intRepr sr), ← hc]

/-! ## Lemmas: comparisons, resolver, acceptance -/

theorem pyGtOptI_self (x : Option Int) : pyGtOptI x x = false := by
  cases x with
  | none => rfl
  | some a => simp [pyGtOptI]

theorem codecEq_kind {a b : Codec} (h : codecEq a b = true) :
    a.kind = b.kind := by
  rw [codecEq] at h
  split at h
  · rw [Bool.and_eq_true] at h
    exact beq_iff_eq.1 h.1
  · split at h
    · rw [Bool.and_eq_true, Bool.and_eq_true] at h
      exact beq_iff_eq.1 h.1.1
    · exact beq_iff_eq.1 h

theorem encoderScan_eq_find (av : String → Bool) (c : Codec) :
    ∀ l : List String,
      encoderScan av c l = (l.find? av).map (mkEncoderInstance c) := by
  intro l
  induction l with
  | nil => rfl
  | cons e rest ih =>
    by_cases he : av e = true
    · rw [encoderScan, if_pos he, List.find?_cons_of_pos _ he]
      rfl
    · rw [encoderScan, if_neg he,
          List.find?_cons_of_neg _ (by simp [he]), ih]

theorem acceptsList_iff (m : String) : ∀ l : List String,
    acceptsList l m = true ↔
      ∃ a ∈ l, (pyLower a.data).isPrefixOf (pyLower m.data) = true := by
  intro l
  induction l with
  | nil => simp [acceptsList]
  | cons a rest ih =>
    rw [acceptsList]
    by_cases ha : (pyLower a.data).isPrefixOf (pyLower m.data) = true
    · rw [if_pos ha]
      constructor
      · intro _
        exact ⟨a, List.mem_cons_self a rest, ha⟩
      · intro _
        rfl
    · rw [if_neg ha, ih]
      constructor
      · rintro ⟨x, hx, hpx⟩
        exact ⟨x, by simp [hx], hpx⟩
      · rintro ⟨x, hx, hpx⟩
        rcases List.mem_cons.1 hx with rfl | hx
        · exact absurd hpx ha
        · exact ⟨x, hx, hpx⟩

theorem pyOr_of_ne {s : String} (h : s ≠ "") (d : String) :
    pyOr (some s) d = s := by
  rw [pyOr, if_neg h]

/-! ## Claims -/

/-- C1 counterexample: for two WAV descriptors (a parameterless kind),
`BaseCodec.__eq__` and `BaseCodec.__gt__` both reduce to type identity, so
`a == b` and `a > b` hold simultaneously, contradicting the claim. -/
theorem claim_C1_counterexample :
    codecEq (wavInit none) (wavInit none) = true ∧
    codecGt (wavInit none) (wavInit none) = true := by decide

/-- C1 (amended): for two descriptors of different kinds, and for two
descriptors whose left operand is of a parametric kind (a bit-rate kind or
L16), `a == b` and `a > b` never both hold; but for two descriptors of the
same parameterless kind (WAV or FLAC) both always hold, since
`BaseCodec.__eq__` and `BaseCodec.__gt__` are the same type-identity test. -/
theorem claim_C1 :
    (∀ a b : Codec,
      (a.kind ≠ b.kind ∨ isBitRateKind a.kind = true ∨
          a.kind = CodecKind.l16) →
      ¬(codecEq a b = true ∧ codecGt a b = true)) ∧
    (∀ a b : Codec, a.kind = b.kind → isBitRateKind a.kind = false →
      a.kind ≠ CodecKind.l16 → codecEq a b = true ∧ codecGt a b = true) := by
  constructor
  · rintro a b h ⟨he, hg⟩
    rcases h with hk | hbr | hl16
    · exact hk (codecEq_kind he)
    · rw [codecEq, if_pos hbr] at he
      rw [codecGt, if_pos hbr] at hg
      rw [Bool.and_eq_true] at he hg
      rw [beq_iff_eq.1 he.2, pyGtOptI_self] at hg
      cases hg.2
    · have hbr' : isBitRateKind a.kind = false := by rw [hl16]; rfl
      rw [codecEq, if_neg (by simp [hbr']), if_pos (by simp [hl16])] at he
      rw [codecGt, if_neg (by simp [hbr']), if_pos (by simp [hl16])] at hg
      rw [Bool.and_eq_true, Bool.and_eq_true] at he hg
      rw [beq_iff_eq.1 he.1.2, pyGtOptI_self] at hg
      cases hg.1.2
  · intro a b hk hbr hl16
    constructor
    · rw [codecEq, if_neg (by simp [hbr]),
          if_neg (by simp [beq_iff_eq, hl16]), beq_iff_eq]
      exact hk
    · rw [codecGt, if_neg (by simp [hbr]),
          if_neg (by simp [beq_iff_eq, hl16]), beq_iff_eq]
      exact hk

theorem claim_C1_witness :
    ¬(codecEq (mp3Init none) (wavInit none) = true ∧
      codecGt (mp3Init none) (wavInit none) = true) :=
  claim_C1.1 (mp3Init none) (wavInit none) (Or.inl (by decide))

/-- C2 (amended): constructing an L16 descriptor from
`"audio/L16;rate=44100;channels=2"` yields `sample_rate = 44100`,
`channels = 2` and that exact `specific_mime_type`; and for every L16
descriptor produced by the constructor whose `sample_rate` and `channels`
are both set and nonzero (zero values are falsy in Python, so
`specific_mime_type` drops them), re-running the constructor on its
`specific_mime_type` reproduces the descriptor exactly. -/
theorem claim_C2 :
    (∃ c : Codec, l16Init (some "audio/L16;rate=44100;channels=2") = some c ∧
      c.sample_rate = some 44100 ∧ c.channels = some 2 ∧
      specific_mime_type c = "audio/L16;rate=44100;channels=2") ∧
    (∀ (s : String) (c : Codec) (sr : Int) (ch : Nat),
      l16Init (some s) = some c → c.sample_rate = some sr →
      c.channels = some ch → sr ≠ 0 → ch ≠ 0 →
      l16Init (some (specific_mime_type c)) = some c) := by
  constructor
  · exact ⟨{ l16Base with
              mime_type := "audio/L16"
              sample_rate := some 44100
              channels := some 2 },
      by decide, by decide, by decide, by decide⟩
  · intro s c sr ch hinit hsr hch hsr0 hch0
    exact l16Init_roundtrip hinit hsr hch hsr0 hch0

theorem claim_C2_witness :
    l16Init (some (specific_mime_type { l16Base with
      mime_type := "audio/L16"
      sample_rate := some 44100
      channels := some 2 })) = some { l16Base with
      mime_type := "audio/L16"
      sample_rate := some 44100
      channels := some 2 } :=
  claim_C2.2 "audio/L16;rate=44100;channels=2" _ 44100 2
    (by decide) (by decide) (by decide) (by decide) (by decide)

/-- C2 counterexample: the claim as stated fails for `channels = 0` (a
single digit, and set): `"audio/L16;rate=44100;channels=0"` parses to
`sample_rate = 44100, channels = 0`, but `0` is falsy, so
`specific_mime_type` is the bare `"audio/L16"`, and re-running the
constructor yields the default descriptor, not the same parameters. -/
theorem claim_C2_counterexample :
    ∃ c : Codec, l16Init (some "audio/L16;rate=44100;channels=0") = some c ∧
      c.sample_rate = some 44100 ∧ c.channels = some 0 ∧
      specific_mime_type c = "audio/L16" ∧
      l16Init (some (specific_mime_type c)) = some l16Base ∧
      l16Base.sample_rate = none ∧
      l16Init (some (specific_mime_type c)) ≠ some c := by
  exact ⟨{ l16Base with
            mime_type := "audio/L16"
            sample_rate := some 44100
            channels := some 0 },
    by decide, by decide, by decide, by decide, by decide, by decide,
    by decide⟩

/-- C3: constructing an L16 descriptor from any string the pattern does not
match never raises and yields the defaults: `mime_type = "audio/L16"`,
`sample_rate = None`, `channels = None`, `specific_mime_type =
"audio/L16"`. -/
theorem claim_C3 : ∀ s : String, l16Match s = none →
    l16Init (some s) = some l16Base ∧ l16Base.mime_type = "audio/L16" ∧
    l16Base.sample_rate = none ∧ l16Base.channels = none ∧
    specific_mime_type l16Base = "audio/L16" := by
  intro s hm
  refine ⟨?_, rfl, rfl, rfl, by decide⟩
  rw [l16Init]
  by_cases hse : s = ""
  · rw [if_pos hse]
  · rw [if_neg hse]
    simp only [hm]

theorem claim_C3_witness :
    l16Init (some "audio/L16;rate=44100") = some l16Base ∧
    l16Base.mime_type = "audio/L16" ∧ l16Base.sample_rate = none ∧
    l16Base.channels = none ∧ specific_mime_type l16Base = "audio/L16" :=
  claim_C3 "audio/L16;rate=44100" (by decide)

/-- C4: for every codec kind and every availability assignment, the
`encoder` property returns an instance of the first entry of the kind's
`ENCODERS` list whose `AVAILABLE` flag is true, constructed with the kind's
parameters, and `None` when no entry is available. -/
theorem claim_C4 :
    (∀ (av : String → Bool) (c : Codec),
      codecEncoder av c
        = ((ENCODERS c.kind).find? av).map (mkEncoderInstance c)) ∧
    (∀ (av : String → Bool) (c : Codec),
      (∀ e ∈ ENCODERS c.kind, av e = false) → codecEncoder av c = none) := by
  constructor
  · intro av c
    exact encoderScan_eq_find av c (ENCODERS c.kind)
  · intro av c h
    rw [codecEncoder, encoderScan_eq_find av c (ENCODERS c.kind),
        List.find?_eq_none.2 (fun e he => by simp [h e he])]
    rfl

theorem claim_C4_witness :
    codecEncoder (fun _ => false) (mp3Init none) = none :=
  claim_C4.2 (fun _ => false) (mp3Init none) (fun _ _ => rfl)

/-- C5: `accepts` is true exactly when the lowercased argument starts with
one of the kind's lowercased `SUPPORTED_MIME_TYPES` prefixes; it returns
false (without raising) on the empty string and on non-matching input,
`"AUDIO/MP3"` is accepted by the MP3 kind, and `"video/mp4"` is rejected by
every kind. -/
theorem claim_C5 :
    (∀ (k : CodecKind) (m : String), accepts k m = true ↔
      ∃ a ∈ SUPPORTED_MIME_TYPES k,
        (pyLower a.data).isPrefixOf (pyLower m.data) = true) ∧
    accepts .mp3 "AUDIO/MP3" = true ∧
    (∀ k : CodecKind, accepts k "video/mp4" = false) ∧
    (∀ k : CodecKind, accepts k "" = false) := by
  refine ⟨?_, by decide, by decide, by decide⟩
  intro k m
  exact acceptsList_iff m (SUPPORTED_MIME_TYPES k)

/-- C6: after a first call on the empty registry, `load_codecs` has
populated `CODECS` with exactly the seven identifiers, each bound to a
distinct codec kind (a bijection excluding the abstract base kind), and a
second call leaves the mapping unchanged. -/
theorem claim_C6 :
    load_codecs [] = [("aac", .aac), ("flac", .flac), ("l16", .l16),
      ("mp3", .mp3), ("ogg", .ogg), ("opus", .opus), ("wav", .wav)] ∧
    ((load_codecs []).map Prod.fst).Perm
      ["mp3", "wav", "l16", "aac", "ogg", "flac", "opus"] ∧
    ((load_codecs []).map Prod.fst).Nodup ∧
    ((load_codecs []).map Prod.snd).Nodup ∧
    load_codecs (load_codecs []) = load_codecs [] := by decide

/-- C7: `enabled` is class-level shared state: after setting it to `v`
through any one descriptor of a kind, every descriptor of that same kind
(construction does not touch the class attribute, so also one constructed
afterwards) reads `v`; and in any state two descriptors of the same kind
read the same value. -/
theorem claim_C7 :
    (∀ (st : EnabledState) (c : Codec) (v : Bool) (d : Codec),
      d.kind = c.kind → readEnabled (setEnabledVia st c v) d = v) ∧
    (∀ (st : EnabledState) (a b : Codec),
      a.kind = b.kind → readEnabled st a = readEnabled st b) := by
  constructor
  · intro st c v d hk
    simp [readEnabled, setEnabledVia, hk]
  · intro st a b hk
    rw [readEnabled, readEnabled, hk]

theorem claim_C7_witness :
    readEnabled (setEnabledVia initialEnabled (wavInit none) false)
      (wavInit none) = false :=
  claim_C7.1 initialEnabled (wavInit none) false (wavInit none) rfl

/-- C8: for the bit-rate kinds, equality holds iff the kinds coincide and
the bit rates are equal, and (for set bit rates) `a > b` holds iff the
kinds coincide and `a`'s bit rate is strictly greater; the concrete
examples of the claim follow. -/
theorem claim_C8 :
    (∀ a b : Codec, isBitRateKind a.kind = true →
      ((codecEq a b = true ↔ a.kind = b.kind ∧ a.bit_rate = b.bit_rate) ∧
       (∀ ra rb : Int, a.bit_rate = some ra → b.bit_rate = some rb →
         (codecGt a b = true ↔ a.kind = b.kind ∧ rb < ra)))) ∧
    codecEq { mp3Init none with bit_rate := some 192 }
      { mp3Init none with bit_rate := some 192 } = true ∧
    codecEq { mp3Init none with bit_rate := some 192 }
      { mp3Init none with bit_rate := some 128 } = false ∧
    (∀ b : Codec, b.kind = CodecKind.aac →
      codecEq { mp3Init none with bit_rate := some 192 } b = false) ∧
    codecGt { mp3Init none with bit_rate := some 256 }
      { mp3Init none with bit_rate := some 128 } = true ∧
    codecGt { mp3Init none with bit_rate := some 128 }
      { aacInit none with bit_rate := some 256 } = false := by
  refine ⟨?_, by decide, by decide, ?_, by decide, by decide⟩
  · intro a b h
    constructor
    · rw [codecEq, if_pos h]
      simp [Bool.and_eq_true, beq_iff_eq]
    · intro ra rb hra hrb
      rw [codecGt, if_pos h, hra, hrb]
      simp [Bool.and_eq_true, beq_iff_eq, pyGtOptI]
  · intro b hb
    have : isBitRateKind (mp3Init none).kind = true := by decide
    rw [codecEq, if_pos this]
    simp [mp3Init, hb]

theorem claim_C8_witness :
    codecEq { mp3Init none with bit_rate := some 192 }
      { mp3Init none with bit_rate := some 192 } = true ↔
    ({ mp3Init none with bit_rate := some 192 } : Codec).kind
        = ({ mp3Init none with bit_rate := some 192 } : Codec).kind ∧
      ({ mp3Init none with bit_rate := some 192 } : Codec).bit_rate
        = ({ mp3Init none with bit_rate := some 192 } : Codec).bit_rate :=
  (claim_C8.1 { mp3Init none with bit_rate := some 192 }
    { mp3Init none with bit_rate := some 192 } (by decide)).1

/-- C9: ordering among L16 descriptors is not total: the descriptors parsed
from rate 48000/channels 2 and rate 44100/channels 2 are unequal, yet
neither compares greater, because `L16Codec.__gt__` requires both
`sample_rate` and `channels` to be strictly greater simultaneously. -/
theorem claim_C9 :
    ∃ a b : Codec,
      l16Init (some "audio/L16;rate=48000;channels=2") = some a ∧
      l16Init (some "audio/L16;rate=44100;channels=2") = some b ∧
      a.sample_rate = some 48000 ∧ b.sample_rate = some 44100 ∧
      a.channels = some 2 ∧ b.channels = some 2 ∧
      codecEq a b = false ∧ codecEq b a = false ∧
      codecGt a b = false ∧ codecGt b a = false := by
  refine ⟨{ l16Base with
             mime_type := "audio/L16"
             sample_rate := some 48000
             channels := some 2 },
    { l16Base with
       mime_type := "audio/L16"
       sample_rate := some 44100
       channels := some 2 },
    by decide, by decide, by decide, by decide, by decide, by decide,
    by decide, by decide, by decide, by decide⟩

/-- C10 (amended): for every non-L16 kind, constructing a descriptor from a
non-empty advertised MIME string stores it verbatim as `mime_type` (and
`specific_mime_type` returns it exactly, accepted or not); the empty string
is falsy under Python `or` and falls back to the default, as does
construction with no argument. -/
theorem claim_C10 :
    (∀ s : String, s ≠ "" →
      ((mp3Init (some s)).mime_type = s ∧
        specific_mime_type (mp3Init (some s)) = s) ∧
      ((wavInit (some s)).mime_type = s ∧
        specific_mime_type (wavInit (some s)) = s) ∧
      ((aacInit (some s)).mime_type = s ∧
        specific_mime_type (aacInit (some s)) = s) ∧
      ((oggInit (some s)).mime_type = s ∧
        specific_mime_type (oggInit (some s)) = s) ∧
      ((flacInit (some s)).mime_type = s ∧
        specific_mime_type (flacInit (some s)) = s) ∧
      ((opusInit (some s)).mime_type = s ∧
        specific_mime_type (opusInit (some s)) = s)) ∧
    (mp3Init none).mime_type = "audio/mp3" ∧
    (wavInit none).mime_type = "audio/wav" ∧
    (aacInit none).mime_type = "audio/aac" ∧
    (oggInit none).mime_type = "audio/ogg" ∧
    (flacInit none).mime_type = "audio/flac" ∧
    (opusInit none).mime_type = "audio/opus" := by
  refine ⟨?_, by decide, by decide, by decide, by decide, by decide,
    by decide⟩
  intro s hs
  refine ⟨⟨?_, ?_⟩, ⟨?_, ?_⟩, ⟨?_, ?_⟩, ⟨?_, ?_⟩, ⟨?_, ?_⟩, ⟨?_, ?_⟩⟩ <;>
    simp [mp3Init, wavInit, aacInit, oggInit, flacInit, opusInit,
      specific_mime_type, pyOr_of_ne hs]

theorem claim_C10_witness :
    (mp3Init (some "video/mp4")).mime_type = "video/mp4" ∧
    specific_mime_type (mp3Init (some "video/mp4")) = "video/mp4" :=
  (claim_C10.1 "video/mp4" (by decide)).1

/-- C10 counterexample: the empty string is an advertised MIME string the
constructor does not store verbatim: `mime_string or 'audio/mp3'` selects
the default, so `specific_mime_type` is `"audio/mp3"`, not `""`. -/
theorem claim_C10_counterexample :
    (mp3Init (some "")).mime_type = "audio/mp3" ∧
    specific_mime_type (mp3Init (some "")) ≠ "" := by decide
